import Mathlib

/-!
Shallow embedding of the contact-book core (`src/main.py`): the proleptic
Gregorian date arithmetic used by Python's `datetime.date`, the `Record` and
`AddressBook` operations, and the upcoming-birthday scheduler, together with
theorems settling the specification claims.
-/

namespace ContactBook

/-- Gregorian leap-year test, as Python's `calendar.isleap`. -/
def isLeap (y : Nat) : Bool :=
  (y % 4 == 0 && y % 100 != 0) || y % 400 == 0

/-- Number of days in month `m` of year `y` (months are 1-based). -/
def daysInMonth (y m : Nat) : Nat :=
  if m = 2 then (if isLeap y then 29 else 28)
  else if m = 4 ∨ m = 6 ∨ m = 9 ∨ m = 11 then 30
  else 31

/-- A calendar date, mirroring Python's `datetime.date` triple. -/
structure Date where
  year : Nat
  month : Nat
  day : Nat
deriving DecidableEq, Repr

/-- The date triples that `datetime.date` accepts (year at least 1,
month 1..12, day within the month). -/
def validDate (d : Date) : Bool :=
  decide (1 ≤ d.year) && decide (1 ≤ d.month) && decide (d.month ≤ 12) &&
  decide (1 ≤ d.day) && decide (d.day ≤ daysInMonth d.year d.month)

/-- Days in all years strictly before year `y`, as CPython's
`datetime._days_before_year`. -/
def daysBeforeYear (y : Nat) : Nat :=
  (y - 1) * 365 + (y - 1) / 4 - (y - 1) / 100 + (y - 1) / 400

/-- Days in year `y` strictly before month `m`, as CPython's
`datetime._days_before_month` (cumulative table plus the leap correction
for months after February). -/
def daysBeforeMonth (y m : Nat) : Nat :=
  let k : Nat := if isLeap y then 1 else 0
  match m with
  | 1 => 0
  | 2 => 31
  | 3 => 59 + k
  | 4 => 90 + k
  | 5 => 120 + k
  | 6 => 151 + k
  | 7 => 181 + k
  | 8 => 212 + k
  | 9 => 243 + k
  | 10 => 273 + k
  | 11 => 304 + k
  | 12 => 334 + k
  | _ => 0

/-- Proleptic Gregorian ordinal of a date, as Python's `date.toordinal`
(January 1 of year 1 has ordinal 1). -/
def toOrdinal (d : Date) : Nat :=
  daysBeforeYear d.year + daysBeforeMonth d.year d.month + d.day

/-- Weekday of a date, as Python's `date.weekday`: Monday is 0, Sunday is 6.
January 1 of year 1 (ordinal 1) was a Monday. -/
def weekday (d : Date) : Nat :=
  (toOrdinal d + 6) % 7

/-- Python's `date` comparison: lexicographic on (year, month, day). -/
def dateLt (a b : Date) : Bool :=
  decide (a.year < b.year ∨ (a.year = b.year ∧
    (a.month < b.month ∨ (a.month = b.month ∧ a.day < b.day))))

/-- Python's `date.replace(year=y)`: rebuilds the date with the new year and
raises `ValueError` (here `none`) when the resulting triple is not a valid
date — the Feb-29-in-a-non-leap-year case. -/
def replaceYear (d : Date) (y : Nat) : Option Date :=
  if validDate ⟨y, d.month, d.day⟩ then some ⟨y, d.month, d.day⟩ else none

/-- Successor date (the effect of adding `timedelta(days=1)`). -/
def nextDay (d : Date) : Date :=
  if d.day < daysInMonth d.year d.month then ⟨d.year, d.month, d.day + 1⟩
  else if d.month < 12 then ⟨d.year, d.month + 1, 1⟩
  else ⟨d.year + 1, 1, 1⟩

/-- Adding `timedelta(days=k)` to a date, as `k` successor steps. -/
def addDays (d : Date) : Nat → Date
  | 0 => d
  | k + 1 => nextDay (addDays d k)

/-- Decimal rendering of `n < 100` padded to two digits, as `strftime` field
`%d` or `%m`. -/
def twoDigits (n : Nat) : String :=
  String.mk [Nat.digitChar (n / 10 % 10), Nat.digitChar (n % 10)]

/-- Decimal rendering of `n < 10000` padded to four digits, as `strftime`
field `%Y` for four-digit years. -/
def fourDigits (n : Nat) : String :=
  String.mk [Nat.digitChar (n / 1000 % 10), Nat.digitChar (n / 100 % 10),
    Nat.digitChar (n / 10 % 10), Nat.digitChar (n % 10)]

/-- `strftime("%d.%m.%Y")`. -/
def fmtDMY (d : Date) : String :=
  twoDigits d.day ++ "." ++ twoDigits d.month ++ "." ++ fourDigits d.year

/-- `strftime("%Y.%m.%d")`. -/
def fmtYMD (d : Date) : String :=
  fourDigits d.year ++ "." ++ twoDigits d.month ++ "." ++ twoDigits d.day

/-- The two exception kinds the store operations raise: `ValidationException`
and `KeyError`, each carrying its message. -/
inductive PyError where
  | validationException (msg : String)
  | keyError (msg : String)
deriving DecidableEq, Repr

/-- Python's `str.isalpha`, restricted to ASCII letters: non-empty and every
character alphabetic (`Name.validate_name`). -/
def validName (s : String) : Bool :=
  decide (s ≠ "") && s.toList.all Char.isAlpha

/-- The check in `Phone.validate_phone`: all decimal digits and length 10. -/
def validPhone (s : String) : Bool :=
  decide (s ≠ "") && s.toList.all Char.isDigit && decide (s.length = 10)

/-- A contact record: validated name, ordered phone list, optional birthday.
The `Field` wrappers of the source carry only their `value`, so they collapse
to the underlying values here. -/
structure Record where
  name : String
  phones : List String
  birthday : Option Date
deriving DecidableEq, Repr

/-- `Record.__init__`: validates the name and starts with no phones and no
birthday; raises `ValidationException` on an invalid name. -/
def mkRecord (name : String) : Except PyError Record :=
  if validName name then Except.ok ⟨name, [], none⟩
  else Except.error (PyError.validationException "Name must contain only letters")

/-- `Record.add_phone`: `Phone(phone)` validates before the append, so an
invalid phone leaves the list untouched and raises. -/
def addPhone (r : Record) (phone : String) : Record × Option PyError :=
  if validPhone phone then ({ r with phones := r.phones ++ [phone] }, none)
  else (r, some (PyError.validationException "Phone number must be 10 digits"))

/-- The loop body of `Record.edit_phone`: every element equal to `old` has its
value overwritten with `new` (the loop has no break and no validation). -/
def editPhones : List String → String → String → List String
  | [], _, _ => []
  | p :: ps, old, new => (if p = old then new else p) :: editPhones ps old new

/-- `Record.edit_phone old new` on record `r`. -/
def editPhone (r : Record) (old new : String) : Record :=
  { r with phones := editPhones r.phones old new }

/-- `Record.find_phone`. -/
def findPhone (r : Record) (phone : String) : Option String :=
  r.phones.find? (fun p => p = phone)

/-- The address book: `UserDict` data as an insertion-ordered association
list from name key to record. -/
structure AddressBook where
  data : List (String × Record)
deriving DecidableEq, Repr

/-- Python `dict` lookup `data.get(name)`. -/
def findKey : List (String × Record) → String → Option Record
  | [], _ => none
  | (k, v) :: rest, name => if k = name then some v else findKey rest name

/-- Python `dict` assignment `data[k] = v`: replaces in place when the key
exists (position kept), otherwise appends. -/
def setKey : List (String × Record) → String → Record → List (String × Record)
  | [], k, v => [(k, v)]
  | (k', v') :: rest, k, v =>
    if k' = k then (k, v) :: rest else (k', v') :: setKey rest k v

/-- Python `del data[k]`: removes the binding (the caller checks presence). -/
def eraseKey : List (String × Record) → String → List (String × Record)
  | [], _ => []
  | (k', v') :: rest, k => if k' = k then rest else (k', v') :: eraseKey rest k

/-- `AddressBook.add_record`: `data[record.name.value] = record`. -/
def addRecord (book : AddressBook) (r : Record) : AddressBook :=
  ⟨setKey book.data r.name r⟩

/-- `AddressBook.find`. -/
def find (book : AddressBook) (name : String) : Option Record :=
  findKey book.data name

/-- `AddressBook.delete`: `del self.data[name]`, raising `KeyError` (`none`)
when the name is absent. -/
def delete (book : AddressBook) (name : String) : Option AddressBook :=
  match findKey book.data name with
  | some _ => some ⟨eraseKey book.data name⟩
  | none => none

/-- Truthiness of the optional `phone` argument in `add_contact`: `None` and
the empty string are falsy. -/
def phoneTruthy : Option String → Bool
  | none => false
  | some s => decide (s ≠ "")

/-- `AddressBook.add_contact`: find-or-create the record (inserting it into
the store before any phone validation), then append the phone when the
argument is truthy. Returns the final store state together with the status
message or the propagated exception, mirroring that Python exceptions leave
earlier mutations in place. -/
def addContact (book : AddressBook) (name : String) (phone : Option String) :
    AddressBook × Except PyError String :=
  match find book name with
  | none =>
    match mkRecord name with
    | Except.error e => (book, Except.error e)
    | Except.ok r =>
      let book1 := addRecord book r
      if phoneTruthy phone then
        match phone with
        | some p =>
          match addPhone r p with
          | (r', none) => (⟨setKey book1.data name r'⟩, Except.ok "Contact added.")
          | (_, some e) => (book1, Except.error e)
        | none => (book1, Except.ok "Contact added.")
      else (book1, Except.ok "Contact added.")
  | some r =>
    if phoneTruthy phone then
      match phone with
      | some p =>
        match addPhone r p with
        | (r', none) => (⟨setKey book.data name r'⟩, Except.ok "Contact updated.")
        | (_, some e) => (book, Except.error e)
      | none => (book, Except.ok "Contact updated.")
    else (book, Except.ok "Contact updated.")

/-- `AddressBook.change_contact`: `KeyError` when the name is unknown,
otherwise delegates to `edit_phone` (which mutates the record in place) and
reports success unconditionally. -/
def changeContact (book : AddressBook) (name old new : String) :
    AddressBook × Except PyError String :=
  match find book name with
  | none => (book, Except.error (PyError.keyError "Contact not found."))
  | some r => (⟨setKey book.data name (editPhone r old new)⟩,
      Except.ok "Phone number updated.")

/-- `AddressBook.show_phone`. -/
def showPhone (book : AddressBook) (name : String) : Except PyError String :=
  match find book name with
  | none => Except.error (PyError.keyError "Contact not found.")
  | some r => Except.ok (String.intercalate "; " r.phones)

/-- One dictionary emitted by `get_upcoming_birthdays`: the contact name and
the two formatted date strings. -/
structure Entry where
  name : String
  birthday : String
  congratulation_date : String
deriving DecidableEq, Repr

/-- Lines 96-101 of the scheduler: `birthday.replace(year=today.year)`, then
advance to `today.year + 1` when strictly earlier than today. Either
`replace` may raise `ValueError` (`none`). -/
def thisYearOccurrence (today b : Date) : Option Date :=
  match replaceYear b today.year with
  | none => none
  | some t => if dateLt t today then replaceYear t (today.year + 1) else some t

/-- `(this_year_birthday - today).days`, the signed day difference. -/
def daysUntil (today t : Date) : Int :=
  (toOrdinal t : Int) - (toOrdinal today : Int)

/-- The lookahead filter `0 <= (this_year_birthday - today).days <= 7`. -/
def inWindow (today t : Date) : Bool :=
  decide (0 ≤ daysUntil today t ∧ daysUntil today t ≤ 7)

/-- Lines 106-111: shift a Saturday occurrence by two days and a Sunday one
by one day; weekdays pass through unchanged. -/
def shiftWeekend (d : Date) : Date :=
  if weekday d = 5 then addDays d 2
  else if weekday d = 6 then addDays d 1
  else d

/-- Lines 113-117: both the `"birthday"` and the `"congratulation_date"`
fields are formatted from `congratulation_date`, the weekend-shifted date. -/
def mkEntry (name : String) (congrat : Date) : Entry :=
  ⟨name, fmtDMY congrat, fmtYMD congrat⟩

/-- The loop body of `get_upcoming_birthdays` for one record: `none` when the
date library raises, `some none` when the record is skipped (no birthday or
outside the window), `some (some e)` when an entry is emitted. -/
def processRecord (today : Date) (r : Record) : Option (Option Entry) :=
  match r.birthday with
  | none => some none
  | some b =>
    match thisYearOccurrence today b with
    | none => none
    | some t =>
      if inWindow today t then some (some (mkEntry r.name (shiftWeekend t)))
      else some none

/-- The full loop over `self.data.values()` in insertion order, collecting
emitted entries; any raised `ValueError` aborts the whole call. -/
def collectBirthdays (today : Date) : List (String × Record) → Option (List Entry)
  | [] => some []
  | (_, r) :: rest =>
    match processRecord today r with
    | none => none
    | some e? =>
      match collectBirthdays today rest with
      | none => none
      | some l =>
        some (match e? with
          | some e => e :: l
          | none => l)

/-- `AddressBook.get_upcoming_birthdays`, with `datetime.now().date()`
abstracted as the `today` parameter. -/
def getUpcomingBirthdays (book : AddressBook) (today : Date) : Option (List Entry) :=
  collectBirthdays today book.data

/-- Well-formed store: keys are pairwise distinct (as in a Python `dict`) and
each record is stored under its own name, as every store operation maintains. -/
def wfBook (book : AddressBook) : Prop :=
  book.data.Pairwise (fun a b => a.1 ≠ b.1) ∧ ∀ p ∈ book.data, p.2.name = p.1

/-- Store invariant of the claims: every key maps to a record named by that
key, and the name passes `validate_name`. -/
def invariant (book : AddressBook) : Prop :=
  ∀ p ∈ book.data, p.2.name = p.1 ∧ validName p.2.name = true

lemma daysBeforeYear_succ (y : Nat) (hy : 1 ≤ y) :
    daysBeforeYear (y + 1) = daysBeforeYear y + (if isLeap y then 366 else 365) := by
  obtain ⟨a, rfl⟩ : ∃ a, y = a + 1 := ⟨y - 1, by omega⟩
  unfold daysBeforeYear isLeap
  simp only [Nat.add_sub_cancel]
  rw [Nat.succ_div a 4, Nat.succ_div a 100, Nat.succ_div a 400]
  simp only [Bool.or_eq_true, Bool.and_eq_true, beq_iff_eq, bne_iff_ne]
  split_ifs <;> omega

lemma daysBeforeMonth_succ (y m : Nat) (h1 : 1 ≤ m) (h2 : m ≤ 11) :
    daysBeforeMonth y (m + 1) = daysBeforeMonth y m + daysInMonth y m := by
  interval_cases m <;> cases h : isLeap y <;>
    simp [daysBeforeMonth, daysInMonth, h]

lemma daysInMonth_pos (y m : Nat) : 1 ≤ daysInMonth y m := by
  unfold daysInMonth
  split_ifs <;> omega

lemma validDate_nextDay (d : Date) (h : validDate d = true) :
    validDate (nextDay d) = true := by
  unfold validDate at h ⊢
  simp only [Bool.and_eq_true, decide_eq_true_eq] at h ⊢
  obtain ⟨⟨⟨⟨hy, hm1⟩, hm2⟩, hd1⟩, hd2⟩ := h
  unfold nextDay
  split_ifs with h1 h2
  · dsimp only
    exact ⟨⟨⟨⟨hy, hm1⟩, hm2⟩, by omega⟩, by omega⟩
  · dsimp only
    exact ⟨⟨⟨⟨hy, by omega⟩, by omega⟩, by omega⟩, daysInMonth_pos _ _⟩
  · dsimp only
    exact ⟨⟨⟨⟨by omega, by omega⟩, by omega⟩, by omega⟩, daysInMonth_pos _ _⟩

lemma toOrdinal_nextDay (d : Date) (h : validDate d = true) :
    toOrdinal (nextDay d) = toOrdinal d + 1 := by
  unfold validDate at h
  simp only [Bool.and_eq_true, decide_eq_true_eq] at h
  obtain ⟨⟨⟨⟨hy, hm1⟩, hm2⟩, hd1⟩, hd2⟩ := h
  unfold nextDay
  split_ifs with h1 h2
  · dsimp only [toOrdinal]
    omega
  · have hday : d.day = daysInMonth d.year d.month := by omega
    have hstep : daysBeforeMonth d.year (d.month + 1) =
        daysBeforeMonth d.year d.month + daysInMonth d.year d.month :=
      daysBeforeMonth_succ d.year d.month hm1 (by omega)
    dsimp only [toOrdinal]
    omega
  · have hm : d.month = 12 := by omega
    have hdim : daysInMonth d.year 12 = 31 := rfl
    have hday : d.day = 31 := by
      rw [hm] at hd2 h1
      rw [hdim] at hd2 h1
      omega
    have hstep := daysBeforeYear_succ d.year hy
    have h12 : daysBeforeMonth d.year 12 = 334 + (if isLeap d.year then 1 else 0) := rfl
    have hb1 : daysBeforeMonth (d.year + 1) 1 = 0 := rfl
    dsimp only [toOrdinal]
    rw [hm, hday, hb1, h12]
    split_ifs at hstep ⊢ <;> omega

lemma toOrdinal_addDays (d : Date) (k : Nat) (h : validDate d = true) (hk : k ≤ 2) :
    toOrdinal (addDays d k) = toOrdinal d + k ∧ validDate (addDays d k) = true := by
  interval_cases k
  · exact ⟨rfl, h⟩
  · exact ⟨toOrdinal_nextDay d h, validDate_nextDay d h⟩
  · have h1 := validDate_nextDay d h
    refine ⟨?_, validDate_nextDay _ h1⟩
    show toOrdinal (nextDay (nextDay d)) = _
    rw [toOrdinal_nextDay _ h1, toOrdinal_nextDay d h]

lemma findKey_setKey_self (l : List (String × Record)) (k : String) (v : Record) :
    findKey (setKey l k v) k = some v := by
  induction l with
  | nil => simp [setKey, findKey]
  | cons p rest ih =>
    by_cases h : p.1 = k
    · simp [setKey, h, findKey]
    · simp [setKey, h, findKey, ih]

lemma setKey_self_of_findKey (l : List (String × Record)) (k : String) (v : Record)
    (h : findKey l k = some v) : setKey l k v = l := by
  induction l with
  | nil => simp [findKey] at h
  | cons p rest ih =>
    by_cases hp : p.1 = k
    · unfold findKey at h
      rw [if_pos hp] at h
      cases h
      unfold setKey
      rw [if_pos hp, ← hp]
    · unfold findKey at h
      rw [if_neg hp] at h
      unfold setKey
      rw [if_neg hp, ih h]

lemma mem_setKey (l : List (String × Record)) (k : String) (v : Record)
    (p : String × Record) (h : p ∈ setKey l k v) : p = (k, v) ∨ p ∈ l := by
  induction l with
  | nil =>
    unfold setKey at h
    exact Or.inl (List.mem_singleton.mp h)
  | cons q rest ih =>
    unfold setKey at h
    split_ifs at h with hq
    · rcases List.mem_cons.mp h with h | h
      · exact Or.inl h
      · exact Or.inr (List.mem_cons_of_mem _ h)
    · rcases List.mem_cons.mp h with h | h
      · exact Or.inr (h ▸ List.mem_cons_self _ _)
      · rcases ih h with h | h
        · exact Or.inl h
        · exact Or.inr (List.mem_cons_of_mem _ h)

lemma mem_eraseKey (l : List (String × Record)) (k : String)
    (p : String × Record) (h : p ∈ eraseKey l k) : p ∈ l := by
  induction l with
  | nil =>
    unfold eraseKey at h
    exact absurd h (List.not_mem_nil p)
  | cons q rest ih =>
    unfold eraseKey at h
    split_ifs at h with hq
    · exact List.mem_cons_of_mem _ h
    · rcases List.mem_cons.mp h with h | h
      · exact h ▸ List.mem_cons_self _ _
      · exact List.mem_cons_of_mem _ (ih h)

lemma findKey_mem (l : List (String × Record)) (k : String) (v : Record)
    (h : findKey l k = some v) : (k, v) ∈ l := by
  induction l with
  | nil => simp [findKey] at h
  | cons p rest ih =>
    unfold findKey at h
    split_ifs at h with hp
    · cases h
      rw [← hp]
      exact List.mem_cons_self _ _
    · exact List.mem_cons_of_mem _ (ih h)

lemma editPhones_eq_map (l : List String) (old new : String) :
    editPhones l old new = l.map (fun p => if p = old then new else p) := by
  induction l with
  | nil => rfl
  | cons p ps ih => simp [editPhones, ih]

lemma editPhones_of_not_mem (l : List String) (old new : String)
    (h : old ∉ l) : editPhones l old new = l := by
  induction l with
  | nil => rfl
  | cons p ps ih =>
    have hp : p ≠ old := fun hc => h (hc ▸ List.mem_cons_self _ _)
    have hps : old ∉ ps := fun hc => h (List.mem_cons_of_mem _ hc)
    simp [editPhones, hp, ih hps]

lemma processRecord_inv (today : Date) (r : Record) (e : Entry)
    (h : processRecord today r = some (some e)) :
    ∃ b t, r.birthday = some b ∧ thisYearOccurrence today b = some t ∧
      inWindow today t = true ∧ e = mkEntry r.name (shiftWeekend t) := by
  unfold processRecord at h
  cases hb : r.birthday with
  | none =>
    rw [hb] at h
    dsimp only at h
    exact absurd h (by simp)
  | some b =>
    rw [hb] at h
    dsimp only at h
    cases ht : thisYearOccurrence today b with
    | none =>
      rw [ht] at h
      dsimp only at h
      exact absurd h (by simp)
    | some t =>
      rw [ht] at h
      dsimp only at h
      split_ifs at h with hw
      · exact ⟨b, t, rfl, ht, hw,
          (Option.some.inj (Option.some.inj h)).symm⟩
      · exact absurd h (by simp)

lemma processRecord_some_birthday (today : Date) (r : Record) (b : Date)
    (e? : Option Entry) (hb : r.birthday = some b)
    (h : processRecord today r = some e?) :
    ∃ t, thisYearOccurrence today b = some t ∧
      ((inWindow today t = true ∧ e? = some (mkEntry r.name (shiftWeekend t))) ∨
       (inWindow today t = false ∧ e? = none)) := by
  unfold processRecord at h
  rw [hb] at h
  dsimp only at h
  cases ht : thisYearOccurrence today b with
  | none =>
    rw [ht] at h
    dsimp only at h
    exact absurd h (by simp)
  | some t =>
    rw [ht] at h
    dsimp only at h
    split_ifs at h with hw
    · exact ⟨t, rfl, Or.inl ⟨hw, (Option.some.inj h).symm⟩⟩
    · exact ⟨t, rfl, Or.inr ⟨by simpa using hw, (Option.some.inj h).symm⟩⟩

lemma collect_provenance (today : Date) (data : List (String × Record))
    (l : List Entry) (hc : collectBirthdays today data = some l)
    (e : Entry) (he : e ∈ l) :
    ∃ p ∈ data, ∃ b t, p.2.birthday = some b ∧
      thisYearOccurrence today b = some t ∧ inWindow today t = true ∧
      e = mkEntry p.2.name (shiftWeekend t) := by
  induction data generalizing l with
  | nil =>
    unfold collectBirthdays at hc
    cases hc
    exact absurd he (List.not_mem_nil e)
  | cons q rest ih =>
    unfold collectBirthdays at hc
    cases hp : processRecord today q.2 with
    | none =>
      rw [hp] at hc
      exact absurd hc (by simp)
    | some e? =>
      rw [hp] at hc
      cases hcr : collectBirthdays today rest with
      | none =>
        rw [hcr] at hc
        exact absurd hc (by simp)
      | some l' =>
        rw [hcr] at hc
        cases e? with
        | some e₀ =>
          cases hc
          rcases List.mem_cons.mp he with rfl | he'
          · obtain ⟨b, t, hb, ht, hw, hEq⟩ := processRecord_inv today q.2 e hp
            exact ⟨q, List.mem_cons_self _ _, b, t, hb, ht, hw, hEq⟩
          · obtain ⟨p, hpmem, rest'⟩ := ih l' hcr he'
            exact ⟨p, List.mem_cons_of_mem _ hpmem, rest'⟩
        | none =>
          cases hc
          obtain ⟨p, hpmem, rest'⟩ := ih l' hcr he
          exact ⟨p, List.mem_cons_of_mem _ hpmem, rest'⟩

lemma collect_names (today : Date) (data : List (String × Record))
    (l : List Entry) (hwf : ∀ p ∈ data, p.2.name = p.1)
    (hc : collectBirthdays today data = some l)
    (e : Entry) (he : e ∈ l) : e.name ∈ data.map Prod.fst := by
  obtain ⟨p, hpmem, b, t, _, _, _, hEq⟩ :=
    collect_provenance today data l hc e he
  rw [hEq]
  show (mkEntry p.2.name (shiftWeekend t)).name ∈ _
  unfold mkEntry
  dsimp only
  rw [hwf p hpmem]
  exact List.mem_map_of_mem Prod.fst hpmem

lemma collect_mem_iff (today : Date) (data : List (String × Record)) :
    ∀ l : List Entry, data.Pairwise (fun a b => a.1 ≠ b.1) →
    (∀ p ∈ data, p.2.name = p.1) →
    collectBirthdays today data = some l →
    ∀ (name : String) (r : Record) (b : Date),
      (name, r) ∈ data → r.birthday = some b →
      ((∃ e ∈ l, e.name = name) ↔
        ∃ t, thisYearOccurrence today b = some t ∧ inWindow today t = true) := by
  induction data with
  | nil =>
    intro l _ _ _ name r b hmem _
    exact absurd hmem (List.not_mem_nil _)
  | cons q rest ih =>
    intro l hpw hwf hc name r b hmem hb
    unfold collectBirthdays at hc
    cases hp : processRecord today q.2 with
    | none =>
      rw [hp] at hc
      exact absurd hc (by simp)
    | some e? =>
      rw [hp] at hc
      cases hcr : collectBirthdays today rest with
      | none =>
        rw [hcr] at hc
        exact absurd hc (by simp)
      | some l' =>
        rw [hcr] at hc
        have hqname : q.2.name = q.1 := hwf q (List.mem_cons_self _ _)
        have hrestwf : ∀ p ∈ rest, p.2.name = p.1 :=
          fun p hp => hwf p (List.mem_cons_of_mem _ hp)
        have hkeys : ∀ p ∈ rest, q.1 ≠ p.1 :=
          fun p hp => (List.pairwise_cons.mp hpw).1 p hp
        rcases List.mem_cons.mp hmem with hhead | htail
        · -- the record in question is at the head
          have hq2 : q.2 = r := (congrArg Prod.snd hhead).symm
          have hq1 : q.1 = name := (congrArg Prod.fst hhead).symm
          obtain ⟨t, ht, hcase⟩ :=
            processRecord_some_birthday today q.2 b e?
              (by rw [hq2]; exact hb) hp
          rcases hcase with ⟨hw, he⟩ | ⟨hw, he⟩
          · subst he
            cases hc
            constructor
            · intro _
              exact ⟨t, ht, hw⟩
            · intro _
              refine ⟨mkEntry q.2.name (shiftWeekend t), List.mem_cons_self _ _, ?_⟩
              show (mkEntry q.2.name (shiftWeekend t)).name = name
              unfold mkEntry
              dsimp only
              rw [hqname, hq1]
          · subst he
            cases hc
            constructor
            · intro ⟨e, he, hename⟩
              have hin : e.name ∈ rest.map Prod.fst :=
                collect_names today rest l' hrestwf hcr e he
              rw [hename, ← hq1] at hin
              obtain ⟨p, hpm, hpe⟩ := List.mem_map.mp hin
              exact absurd hpe.symm (hkeys p hpm)
            · intro ⟨t', ht', hw'⟩
              rw [ht] at ht'
              cases ht'
              rw [hw] at hw'
              exact Bool.noConfusion hw'
        · -- the record in question is in the tail
          have hiff := ih l' (List.pairwise_cons.mp hpw).2 hrestwf hcr name r b htail hb
          cases e? with
          | some e₀ =>
            cases hc
            rw [← hiff]
            constructor
            · intro ⟨e, he, hename⟩
              rcases List.mem_cons.mp he with rfl | he'
              · obtain ⟨b₀, t₀, _, _, _, hEq⟩ := processRecord_inv today q.2 e hp
                have hename₀ : e.name = q.1 := by
                  rw [hEq]
                  show (mkEntry q.2.name (shiftWeekend t₀)).name = q.1
                  unfold mkEntry
                  dsimp only
                  exact hqname
                exact absurd (hename₀.symm.trans hename) (hkeys (name, r) htail)
              · exact ⟨e, he', hename⟩
            · intro ⟨e, he, hename⟩
              exact ⟨e, List.mem_cons_of_mem _ he, hename⟩
          | none =>
            cases hc
            exact hiff

lemma replaceYear_inv (d : Date) (y : Nat) (t : Date) (h : replaceYear d y = some t) :
    t = ⟨y, d.month, d.day⟩ ∧ validDate ⟨y, d.month, d.day⟩ = true := by
  unfold replaceYear at h
  split_ifs at h with hv
  exact ⟨(Option.some.inj h).symm, hv⟩

lemma thisYearOccurrence_inv (today b t : Date)
    (h : thisYearOccurrence today b = some t) :
    (t = ⟨today.year, b.month, b.day⟩ ∧
      dateLt ⟨today.year, b.month, b.day⟩ today = false) ∨
    (t = ⟨today.year + 1, b.month, b.day⟩ ∧
      dateLt ⟨today.year, b.month, b.day⟩ today = true) := by
  unfold thisYearOccurrence at h
  cases h0 : replaceYear b today.year with
  | none =>
    rw [h0] at h
    exact absurd h (by simp)
  | some t₀ =>
    rw [h0] at h
    dsimp only at h
    obtain ⟨rfl, hv⟩ := replaceYear_inv b today.year t₀ h0
    split_ifs at h with hlt
    · obtain ⟨ht, _⟩ := replaceYear_inv _ _ _ h
      exact Or.inr ⟨ht, hlt⟩
    · exact Or.inl ⟨(Option.some.inj h).symm, by simpa using hlt⟩

/-- Example store: one contact whose birthday falls on Saturday June 15 in
2024, queried with today = Monday 2024-06-10. -/
def bookAlice : AddressBook := ⟨[("Alice", ⟨"Alice", [], some ⟨1990, 6, 15⟩⟩)]⟩

/-- The `today` of the spec's worked example, 10.06.2024. -/
def todayJune10 : Date := ⟨2024, 6, 10⟩

/-- Example store: one contact with the stored birthday February 29, 2020. -/
def bookFeb29 : AddressBook := ⟨[("Eve", ⟨"Eve", [], some ⟨2020, 2, 29⟩⟩)]⟩

/-- C4: a stored birthday of February 29 together with a `today` in a
non-leap year makes `get_upcoming_birthdays` hit the unhandled
`ValueError` from `date.replace` (modelled as `none`) instead of
returning a list: the error branch is reachable. -/
theorem feb29_nonleap_raises :
    validDate ⟨2020, 2, 29⟩ = true ∧ isLeap 2025 = false ∧
    getUpcomingBirthdays bookFeb29 ⟨2025, 1, 1⟩ = none :=
  ⟨by decide, by decide, rfl⟩

/-- C3 counterexample: for the Saturday occurrence 2024-06-15 the emitted
entry's `birthday` field is `"17.06.2024"`, the weekend-shifted
congratulation date, not the unshifted occurrence `"15.06.2024"` the claim
requires. -/
theorem entry_birthday_field_shifted_cex :
    thisYearOccurrence todayJune10 ⟨1990, 6, 15⟩ = some ⟨2024, 6, 15⟩ ∧
    weekday ⟨2024, 6, 15⟩ = 5 ∧
    getUpcomingBirthdays bookAlice todayJune10 =
      some [⟨"Alice", "17.06.2024", "2024.06.17"⟩] ∧
    fmtDMY ⟨2024, 6, 15⟩ = "15.06.2024" ∧
    ("17.06.2024" : String) ≠ "15.06.2024" :=
  ⟨rfl, by decide, rfl, rfl, by decide⟩

/-- C5 counterexample: `edit_phone` has no `break`, so with two phones equal
to the old value both are replaced, not just the first. -/
theorem edit_phone_replaces_all_cex :
    editPhone ⟨"Bob", ["1111111111", "1111111111"], none⟩ "1111111111" "2222222222" =
      ⟨"Bob", ["2222222222", "2222222222"], none⟩ ∧
    (["2222222222", "2222222222"] : List String) ≠ ["2222222222", "1111111111"] :=
  ⟨rfl, by decide⟩

/-- C6 counterexample: `edit_phone` assigns the raw string without
validation, so the invalid value `"abc"` is stored and the phone list does
change — no `ValidationError` is possible. -/
theorem edit_phone_no_validation_cex :
    validPhone "abc" = false ∧
    editPhone ⟨"Carol", ["1111111111"], none⟩ "1111111111" "abc" =
      ⟨"Carol", ["abc"], none⟩ ∧
    (["abc"] : List String) ≠ ["1111111111"] :=
  ⟨by decide, rfl, by decide⟩

/-- C7 counterexample: the empty string is an invalid phone (not 10 digits),
yet `add_contact` raises nothing for it — `if phone:` is false for `""`, so
the contact is created and the success message returned. -/
theorem add_contact_empty_phone_cex :
    validPhone "" = false ∧
    addContact ⟨[]⟩ "Dave" (some "") =
      (⟨[("Dave", ⟨"Dave", [], none⟩)]⟩, Except.ok "Contact added.") :=
  ⟨by decide, rfl⟩

/-- C3 amended: every emitted entry takes BOTH its `birthday` field and its
`congratulation_date` field from the same weekend-shifted congratulation
date, formatted `day.month.year` and `year.month.day` respectively; the two
fields always denote the same calendar date. -/
theorem entry_fields_same_date (book : AddressBook) (today : Date)
    (l : List Entry) (hc : getUpcomingBirthdays book today = some l)
    (e : Entry) (he : e ∈ l) :
    ∃ p ∈ book.data, ∃ b t, p.2.birthday = some b ∧
      thisYearOccurrence today b = some t ∧ inWindow today t = true ∧
      e.birthday = fmtDMY (shiftWeekend t) ∧
      e.congratulation_date = fmtYMD (shiftWeekend t) := by
  obtain ⟨p, hp, b, t, hb, ht, hw, hEq⟩ :=
    collect_provenance today book.data l hc e he
  exact ⟨p, hp, b, t, hb, ht, hw, by rw [hEq]; rfl, by rw [hEq]; rfl⟩

theorem entry_fields_same_date_witness :
    ∃ p ∈ bookAlice.data, ∃ b t, p.2.birthday = some b ∧
      thisYearOccurrence todayJune10 b = some t ∧ inWindow todayJune10 t = true ∧
      (Entry.mk "Alice" "17.06.2024" "2024.06.17").birthday = fmtDMY (shiftWeekend t) ∧
      (Entry.mk "Alice" "17.06.2024" "2024.06.17").congratulation_date =
        fmtYMD (shiftWeekend t) :=
  entry_fields_same_date bookAlice todayJune10
    [⟨"Alice", "17.06.2024", "2024.06.17"⟩] rfl
    ⟨"Alice", "17.06.2024", "2024.06.17"⟩ (List.mem_singleton.mpr rfl)

/-- C5 amended: `edit_phone` keeps the name, birthday and list length, and
replaces the value of EVERY phone equal to `old` (not only the first):
position by position the result is `new` where the original was `old` and
the original value elsewhere; when no phone equals `old` it is a silent
no-op. -/
theorem edit_phone_replaces_every_match (r : Record) (old new : String) :
    (editPhone r old new).name = r.name ∧
    (editPhone r old new).birthday = r.birthday ∧
    (editPhone r old new).phones =
      r.phones.map (fun p => if p = old then new else p) ∧
    (old ∉ r.phones → editPhone r old new = r) := by
  refine ⟨rfl, rfl, editPhones_eq_map r.phones old new, ?_⟩
  intro h
  unfold editPhone
  rw [editPhones_of_not_mem r.phones old new h]

theorem edit_phone_replaces_every_match_witness :
    (editPhone ⟨"Bob", ["1111111111", "0000000000", "1111111111"], none⟩
        "1111111111" "2222222222").phones =
      (["1111111111", "0000000000", "1111111111"].map
        (fun p => if p = "1111111111" then "2222222222" else p)) ∧
    editPhone ⟨"Bob", ["0000000000"], none⟩ "9999999999" "8888888888" =
      ⟨"Bob", ["0000000000"], none⟩ :=
  ⟨(edit_phone_replaces_every_match
      ⟨"Bob", ["1111111111", "0000000000", "1111111111"], none⟩
      "1111111111" "2222222222").2.2.1,
   (edit_phone_replaces_every_match ⟨"Bob", ["0000000000"], none⟩
      "9999999999" "8888888888").2.2.2 (by decide)⟩

/-- C6 amended: `edit_phone` performs no validation of `new` and never
raises: whatever string `new` is — including one that is not 10 decimal
digits — it is stored verbatim whenever some phone equals `old`. -/
theorem edit_phone_stores_unvalidated (r : Record) (old new : String)
    (h : old ∈ r.phones) : new ∈ (editPhone r old new).phones := by
  show new ∈ editPhones r.phones old new
  rw [editPhones_eq_map]
  refine List.mem_map.mpr ⟨old, h, ?_⟩
  simp

theorem edit_phone_stores_unvalidated_witness :
    validPhone "abc" = false ∧
    "abc" ∈ (editPhone ⟨"Carol", ["1111111111"], none⟩ "1111111111" "abc").phones :=
  ⟨by decide,
   edit_phone_stores_unvalidated ⟨"Carol", ["1111111111"], none⟩
     "1111111111" "abc" (by decide)⟩

/-- C7 amended: for a valid unknown name and a NON-EMPTY invalid phone
string, `add_contact` raises `ValidationError` for the phone and yet the
freshly created record (with no phones) is already in the store: the record
is inserted before the phone is validated. (For the empty string — also an
invalid phone — the truthiness check skips validation and no error is
raised, see the counterexample.) -/
theorem add_contact_partial_commit (book : AddressBook) (name p : String)
    (hname : validName name = true) (habs : find book name = none)
    (hp : p ≠ "") (hinv : validPhone p = false) :
    addContact book name (some p) =
      (addRecord book ⟨name, [], none⟩,
       Except.error (PyError.validationException "Phone number must be 10 digits")) ∧
    find (addRecord book ⟨name, [], none⟩) name = some ⟨name, [], none⟩ := by
  have h1 : mkRecord name = Except.ok ⟨name, [], none⟩ := by
    unfold mkRecord
    rw [hname, if_pos rfl]
  have h2 : addPhone (⟨name, [], none⟩ : Record) p =
      (⟨name, [], none⟩,
       some (PyError.validationException "Phone number must be 10 digits")) := by
    unfold addPhone
    rw [hinv, if_neg (by simp)]
  have h3 : phoneTruthy (some p) = true := by
    unfold phoneTruthy
    exact decide_eq_true hp
  constructor
  · unfold addContact
    rw [habs]
    dsimp only
    rw [h1]
    dsimp only
    rw [h3, if_pos rfl]
    rw [h2]
  · exact findKey_setKey_self book.data name ⟨name, [], none⟩

theorem add_contact_partial_commit_witness :
    addContact ⟨[]⟩ "Frank" (some "123") =
      (addRecord ⟨[]⟩ ⟨"Frank", [], none⟩,
       Except.error (PyError.validationException "Phone number must be 10 digits")) ∧
    find (addRecord ⟨[]⟩ ⟨"Frank", [], none⟩) "Frank" = some ⟨"Frank", [], none⟩ :=
  add_contact_partial_commit ⟨[]⟩ "Frank" "123" (by decide) rfl (by decide) (by decide)

/-- C8: `change_contact` fails with `KeyError` ("Contact not found.")
exactly when the name is absent; on a known name whose record has no phone
equal to `oldPhone` it returns the success message and the store — in
particular the record's phone list — is unchanged. -/
theorem change_contact_not_found_iff (book : AddressBook) (name old new : String) :
    ((changeContact book name old new).2 =
        Except.error (PyError.keyError "Contact not found.") ↔
      find book name = none) ∧
    (∀ r, find book name = some r → old ∉ r.phones →
      changeContact book name old new = (book, Except.ok "Phone number updated.")) := by
  constructor
  · constructor
    · intro h
      cases hf : find book name with
      | none => rfl
      | some r =>
        unfold changeContact at h
        rw [hf] at h
        dsimp only at h
        exact Except.noConfusion h
    · intro h
      unfold changeContact
      rw [h]
  · intro r hf hold
    unfold changeContact
    rw [hf]
    dsimp only
    have hnoop : editPhone r old new = r := by
      unfold editPhone
      rw [editPhones_of_not_mem r.phones old new hold]
    rw [hnoop, setKey_self_of_findKey book.data name r hf]

theorem change_contact_not_found_iff_witness :
    (changeContact ⟨[]⟩ "Zoe" "1111111111" "2222222222").2 =
      Except.error (PyError.keyError "Contact not found.") ∧
    changeContact ⟨[("Bob", ⟨"Bob", ["1234567890"], none⟩)]⟩
        "Bob" "9999999999" "8888888888" =
      (⟨[("Bob", ⟨"Bob", ["1234567890"], none⟩)]⟩,
       Except.ok "Phone number updated.") :=
  ⟨(change_contact_not_found_iff ⟨[]⟩ "Zoe" "1111111111" "2222222222").1.mpr rfl,
   (change_contact_not_found_iff ⟨[("Bob", ⟨"Bob", ["1234567890"], none⟩)]⟩
      "Bob" "9999999999" "8888888888").2
     ⟨"Bob", ["1234567890"], none⟩ rfl (by decide)⟩

/-- C10: for an invalid name not in the store, `Record(name)` raises inside
`add_contact` before `add_record` runs, so the operation fails with
`ValidationError` and the store is completely unchanged — unlike the
invalid-phone case. -/
theorem add_contact_invalid_name_unchanged (book : AddressBook) (name : String)
    (phone : Option String) (hname : validName name = false)
    (habs : find book name = none) :
    addContact book name phone =
      (book, Except.error (PyError.validationException "Name must contain only letters")) := by
  have h1 : mkRecord name =
      Except.error (PyError.validationException "Name must contain only letters") := by
    unfold mkRecord
    rw [hname, if_neg (by simp)]
  unfold addContact
  rw [habs]
  dsimp only
  rw [h1]

theorem add_contact_invalid_name_unchanged_witness :
    addContact ⟨[]⟩ "mike2" (some "1234567890") =
      (⟨[]⟩, Except.error (PyError.validationException "Name must contain only letters")) :=
  add_contact_invalid_name_unchanged ⟨[]⟩ "mike2" (some "1234567890") (by decide) rfl

lemma invariant_setKey (book : AddressBook) (k : String) (v : Record)
    (hinv : invariant book) (hk : v.name = k) (hv : validName v.name = true) :
    invariant ⟨setKey book.data k v⟩ := by
  intro p hp
  rcases mem_setKey book.data k v p hp with rfl | hp'
  · exact ⟨hk, hv⟩
  · exact hinv p hp'

lemma invariant_find (book : AddressBook) (name : String) (r : Record)
    (hinv : invariant book) (hf : find book name = some r) :
    r.name = name ∧ validName r.name = true :=
  hinv (name, r) (findKey_mem book.data name r hf)

/-- C9: `add_record` (for a record whose name passed the constructor's
validation, as every record produced by `Record.__init__` has),
`add_contact`, `change_contact` and `delete` all preserve the invariant
that each key maps to a record named by that key with a validated,
non-empty alphabetic name. The queries (`find`, `show_phone`, `show_all`,
`get_upcoming_birthdays`) do not modify the store at all. -/
theorem store_ops_preserve_invariant :
    (∀ (book : AddressBook) (r : Record), invariant book →
      validName r.name = true → invariant (addRecord book r)) ∧
    (∀ (book : AddressBook) (name : String) (phone : Option String),
      invariant book → invariant (addContact book name phone).1) ∧
    (∀ (book : AddressBook) (name old new : String),
      invariant book → invariant (changeContact book name old new).1) ∧
    (∀ (book : AddressBook) (name : String) (book' : AddressBook),
      invariant book → delete book name = some book' → invariant book') := by
  have haddrec : ∀ (book : AddressBook) (r : Record), invariant book →
      validName r.name = true → invariant (addRecord book r) :=
    fun book r hinv hv => invariant_setKey book r.name r hinv rfl hv
  refine ⟨haddrec, ?_, ?_, ?_⟩
  · intro book name phone hinv
    unfold addContact
    cases hf : find book name with
    | none =>
      dsimp only
      cases hn : validName name with
      | false =>
        have h1 : mkRecord name = Except.error
            (PyError.validationException "Name must contain only letters") := by
          unfold mkRecord
          rw [hn, if_neg (by simp)]
        rw [h1]
        dsimp only
        exact hinv
      | true =>
        have h1 : mkRecord name = Except.ok ⟨name, [], none⟩ := by
          unfold mkRecord
          rw [hn, if_pos rfl]
        rw [h1]
        dsimp only
        have hbook1 : invariant (addRecord book ⟨name, [], none⟩) :=
          haddrec book ⟨name, [], none⟩ hinv hn
        cases htr : phoneTruthy phone with
        | false =>
          rw [if_neg (by simp)]
          exact hbook1
        | true =>
          rw [if_pos rfl]
          cases phone with
          | none => exact hbook1
          | some p =>
            dsimp only
            unfold addPhone
            cases hvp : validPhone p with
            | false =>
              rw [if_neg (by simp)]
              exact hbook1
            | true =>
              rw [if_pos rfl]
              dsimp only
              exact invariant_setKey (addRecord book ⟨name, [], none⟩) name
                ⟨name, [p], none⟩ hbook1 rfl hn
    | some r =>
      dsimp only
      obtain ⟨hrname, hrvalid⟩ := invariant_find book name r hinv hf
      cases htr : phoneTruthy phone with
      | false =>
        rw [if_neg (by simp)]
        exact hinv
      | true =>
        rw [if_pos rfl]
        cases phone with
        | none => exact hinv
        | some p =>
          dsimp only
          unfold addPhone
          cases hvp : validPhone p with
          | false =>
            rw [if_neg (by simp)]
            exact hinv
          | true =>
            rw [if_pos rfl]
            dsimp only
            exact invariant_setKey book name { r with phones := r.phones ++ [p] }
              hinv hrname hrvalid
  · intro book name old new hinv
    unfold changeContact
    cases hf : find book name with
    | none => exact hinv
    | some r =>
      dsimp only
      obtain ⟨hrname, hrvalid⟩ := invariant_find book name r hinv hf
      exact invariant_setKey book name (editPhone r old new) hinv hrname hrvalid
  · intro book name book' hinv hdel
    unfold delete at hdel
    cases hf : findKey book.data name with
    | none =>
      rw [hf] at hdel
      exact absurd hdel (by simp)
    | some r =>
      rw [hf] at hdel
      dsimp only at hdel
      cases hdel
      intro p hp
      exact hinv p (mem_eraseKey book.data name p hp)

theorem store_ops_preserve_invariant_witness :
    invariant (addRecord ⟨[]⟩ ⟨"Ann", [], none⟩) ∧
    invariant (addContact ⟨[]⟩ "Bea" (some "1234567890")).1 ∧
    invariant (changeContact ⟨[("Cal", ⟨"Cal", ["1234567890"], none⟩)]⟩
      "Cal" "1234567890" "0000000000").1 ∧
    invariant (⟨[]⟩ : AddressBook) :=
  have hempty : invariant (⟨[]⟩ : AddressBook) :=
    fun p hp => absurd hp (List.not_mem_nil p)
  have hcal : invariant (⟨[("Cal", ⟨"Cal", ["1234567890"], none⟩)]⟩ : AddressBook) :=
    fun p hp => by
      rcases List.mem_singleton.mp hp with rfl
      exact ⟨rfl, by decide⟩
  ⟨store_ops_preserve_invariant.1 ⟨[]⟩ ⟨"Ann", [], none⟩ hempty (by decide),
   store_ops_preserve_invariant.2.1 ⟨[]⟩ "Bea" (some "1234567890") hempty,
   store_ops_preserve_invariant.2.2.1 ⟨[("Cal", ⟨"Cal", ["1234567890"], none⟩)]⟩
     "Cal" "1234567890" "0000000000" hcal,
   store_ops_preserve_invariant.2.2.2 ⟨[("Dan", ⟨"Dan", [], none⟩)]⟩ "Dan" ⟨[]⟩
     (fun p hp => by
       rcases List.mem_singleton.mp hp with rfl
       exact ⟨rfl, by decide⟩) rfl⟩

lemma inWindow_iff (today t : Date) :
    inWindow today t = true ↔ 0 ≤ daysUntil today t ∧ daysUntil today t ≤ 7 := by
  unfold inWindow
  simp

/-- C1: with the query succeeding, a record with a set birthday is
represented in the result exactly when its next occurrence qualifies:
the occurrence is the birthday's month/day in today's year, advanced to
today's year + 1 precisely when strictly earlier than today, and it
qualifies exactly when the integer day difference to today lies in the
inclusive range 0..7. -/
theorem upcoming_birthdays_window_iff (book : AddressBook) (today : Date)
    (l : List Entry) (hwf : wfBook book)
    (hc : getUpcomingBirthdays book today = some l)
    (name : String) (r : Record) (b : Date)
    (hmem : (name, r) ∈ book.data) (hb : r.birthday = some b) :
    ((∃ e ∈ l, e.name = name) ↔
      ∃ t, thisYearOccurrence today b = some t ∧
        0 ≤ daysUntil today t ∧ daysUntil today t ≤ 7) ∧
    (∀ t, thisYearOccurrence today b = some t →
      (t = ⟨today.year, b.month, b.day⟩ ∧
        dateLt ⟨today.year, b.month, b.day⟩ today = false) ∨
      (t = ⟨today.year + 1, b.month, b.day⟩ ∧
        dateLt ⟨today.year, b.month, b.day⟩ today = true)) := by
  constructor
  · have hiff := collect_mem_iff today book.data l hwf.1 hwf.2 hc name r b hmem hb
    rw [hiff]
    constructor
    · rintro ⟨t, ht, hw⟩
      exact ⟨t, ht, (inWindow_iff today t).mp hw⟩
    · rintro ⟨t, ht, h0, h7⟩
      exact ⟨t, ht, (inWindow_iff today t).mpr ⟨h0, h7⟩⟩
  · intro t ht
    exact thisYearOccurrence_inv today b t ht

theorem upcoming_birthdays_window_iff_witness :
    ((∃ e ∈ [Entry.mk "Alice" "17.06.2024" "2024.06.17"], e.name = "Alice") ↔
      ∃ t, thisYearOccurrence todayJune10 ⟨1990, 6, 15⟩ = some t ∧
        0 ≤ daysUntil todayJune10 t ∧ daysUntil todayJune10 t ≤ 7) ∧
    (∀ t, thisYearOccurrence todayJune10 ⟨1990, 6, 15⟩ = some t →
      (t = ⟨todayJune10.year, 6, 15⟩ ∧
        dateLt ⟨todayJune10.year, 6, 15⟩ todayJune10 = false) ∨
      (t = ⟨todayJune10.year + 1, 6, 15⟩ ∧
        dateLt ⟨todayJune10.year, 6, 15⟩ todayJune10 = true)) :=
  upcoming_birthdays_window_iff bookAlice todayJune10
    [Entry.mk "Alice" "17.06.2024" "2024.06.17"]
    ⟨List.pairwise_singleton _ _,
     fun p hp => by
       rcases List.mem_singleton.mp hp with rfl
       rfl⟩
    rfl "Alice" ⟨"Alice", [], some ⟨1990, 6, 15⟩⟩ ⟨1990, 6, 15⟩
    (List.mem_singleton.mpr rfl) rfl

/-- C2: a qualifying occurrence on a Saturday is shifted by exactly 2 days
and one on a Sunday by exactly 1 day, landing on a Monday; Monday–Friday
occurrences are unchanged; the congratulation date is therefore always a
weekday, and it can leave the 7-day window (witnessed by a Sunday at
day + 7). -/
theorem congratulation_weekend_shift (t : Date) (h : validDate t = true) :
    (weekday t = 5 → shiftWeekend t = addDays t 2 ∧
      toOrdinal (shiftWeekend t) = toOrdinal t + 2 ∧ weekday (shiftWeekend t) = 0) ∧
    (weekday t = 6 → shiftWeekend t = addDays t 1 ∧
      toOrdinal (shiftWeekend t) = toOrdinal t + 1 ∧ weekday (shiftWeekend t) = 0) ∧
    (weekday t ≤ 4 → shiftWeekend t = t) ∧
    weekday (shiftWeekend t) ≤ 4 ∧
    (∃ today occ : Date, validDate occ = true ∧ inWindow today occ = true ∧
      inWindow today (shiftWeekend occ) = false) := by
  have h2 := toOrdinal_addDays t 2 h (by omega)
  have h1 := toOrdinal_addDays t 1 h (by omega)
  have hlt7 : weekday t < 7 := Nat.mod_lt _ (by omega)
  have hsat : weekday t = 5 → shiftWeekend t = addDays t 2 ∧
      toOrdinal (shiftWeekend t) = toOrdinal t + 2 ∧ weekday (shiftWeekend t) = 0 := by
    intro h5
    have hs : shiftWeekend t = addDays t 2 := by
      unfold shiftWeekend
      rw [if_pos h5]
    refine ⟨hs, by rw [hs]; exact h2.1, ?_⟩
    rw [hs]
    unfold weekday at h5 ⊢
    rw [h2.1]
    omega
  have hsun : weekday t = 6 → shiftWeekend t = addDays t 1 ∧
      toOrdinal (shiftWeekend t) = toOrdinal t + 1 ∧ weekday (shiftWeekend t) = 0 := by
    intro h6
    have hs : shiftWeekend t = addDays t 1 := by
      unfold shiftWeekend
      rw [if_neg (by omega), if_pos h6]
    refine ⟨hs, by rw [hs]; exact h1.1, ?_⟩
    rw [hs]
    unfold weekday at h6 ⊢
    rw [h1.1]
    omega
  have hwk : weekday t ≤ 4 → shiftWeekend t = t := by
    intro hle
    unfold shiftWeekend
    rw [if_neg (by omega), if_neg (by omega)]
  refine ⟨hsat, hsun, hwk, ?_, ?_⟩
  · by_cases h5 : weekday t = 5
    · rw [(hsat h5).2.2]
      omega
    · by_cases h6 : weekday t = 6
      · rw [(hsun h6).2.2]
        omega
      · rw [hwk (by omega)]
        omega
  · exact ⟨⟨2024, 6, 9⟩, ⟨2024, 6, 16⟩, by decide, by decide, by decide⟩

theorem congratulation_weekend_shift_witness :
    weekday ⟨2024, 6, 15⟩ = 5 ∧
    (shiftWeekend ⟨2024, 6, 15⟩ = addDays ⟨2024, 6, 15⟩ 2 ∧
      toOrdinal (shiftWeekend ⟨2024, 6, 15⟩) = toOrdinal ⟨2024, 6, 15⟩ + 2 ∧
      weekday (shiftWeekend ⟨2024, 6, 15⟩) = 0) :=
  ⟨by decide,
   (congratulation_weekend_shift ⟨2024, 6, 15⟩ (by decide)).1 (by decide)⟩

end ContactBook
